import Mathlib

/-!
Verification of the soft Dice loss of `InnerEye/ML/models/losses/soft_dice.py` and of the
training entry script `InnerEye-Generative/mains/synth_UNet2D_main.py`, over a shallow
embedding. Tensor entries are exact rationals in place of floating point; the
exponential used by softmax is transcendental and is therefore a parameter of the
embedding, quantified over in every statement that needs it.
-/

namespace Torch

/-- Model of a `torch.Tensor`: a shape (list of dimension sizes) together with a total
valuation of multi-indices. Only the indices enumerated by `allIndices shape` denote
elements; the valuation is total to keep the embedding simple. -/
structure Tensor where
  shape : List ℕ
  val : List ℕ → ℚ

instance : Inhabited Tensor := ⟨⟨[], fun _ => 0⟩⟩

/-- All valid multi-indices of a shape, in row-major order. -/
def allIndices : List ℕ → List (List ℕ)
  | [] => [[]]
  | d :: ds => (List.range d).flatMap (fun i => (allIndices ds).map (fun ix => i :: ix))

/-- Number of elements of a tensor (`Tensor.numel`). -/
def numel (t : Tensor) : ℕ := t.shape.prod

/-- Sum of all entries of a tensor (`torch.sum` with no `dim` argument). -/
def sumAll (t : Tensor) : ℚ := ((allIndices t.shape).map t.val).sum

/-- Mean of all entries of a tensor (`torch.mean`). -/
def mean (t : Tensor) : ℚ := sumAll t / (numel t : ℚ)

/-- Elementwise product of same-shape tensors (`output * target`). -/
def mul (a b : Tensor) : Tensor := ⟨a.shape, fun ix => a.val ix * b.val ix⟩

/-- Elementwise sum of same-shape tensors. -/
def add (a b : Tensor) : Tensor := ⟨a.shape, fun ix => a.val ix + b.val ix⟩

/-- Elementwise quotient of same-shape tensors. -/
def div (a b : Tensor) : Tensor := ⟨a.shape, fun ix => a.val ix / b.val ix⟩

/-- Add a scalar to every entry (the broadcast `t + eps` of the source). -/
def addScalar (t : Tensor) (c : ℚ) : Tensor := ⟨t.shape, fun ix => t.val ix + c⟩

/-- Divide every entry by a scalar (the broadcast `t / n` of the source). -/
def divScalar (t : Tensor) (c : ℚ) : Tensor := ⟨t.shape, fun ix => t.val ix / c⟩

/-- Sum a tensor along dimension `d` (`torch.sum(t, dim=d)`): the dimension is removed
from the shape and each entry of the result sums over all positions of that dimension. -/
def sumDim (t : Tensor) (d : ℕ) : Tensor :=
  ⟨t.shape.eraseIdx d,
   fun ix => ((List.range (t.shape.getD d 0)).map (fun i => t.val (ix.insertIdx d i))).sum⟩

/-- Sum along a strictly increasing list of dimensions (`torch.sum(t, dim=dims)`),
realized by removing the highest listed dimension first so that the positions of the
remaining listed dimensions are unaffected. -/
def sumDims (t : Tensor) (dims : List ℕ) : Tensor := dims.reverse.foldl sumDim t

/-- Insert a new leading dimension of size one (`t.unsqueeze(0)`). -/
def unsqueeze0 (t : Tensor) : Tensor := ⟨1 :: t.shape, fun ix => t.val ix.tail⟩

/-- Softmax along dimension 1 (`torch.nn.functional.softmax(t, dim=1)`), with the
exponential `expf` a parameter of the embedding. -/
def softmax (expf : ℚ → ℚ) (t : Tensor) : Tensor :=
  ⟨t.shape,
   fun ix => expf (t.val ix) /
     ((List.range (t.shape.tail.headD 0)).map (fun j => expf (t.val (ix.set 1 j)))).sum⟩

/-- Concatenation along dimension 0 of a family of `1 :: s`-shaped tensors: the way
`SyncFunction.apply` (all-gather followed by `torch.cat(dim=0)`) combines per-device
statistics of shape `[1, classes]` into a `[devices, classes]` tensor. -/
def stackDevices (ts : List Tensor) : Tensor :=
  ⟨ts.length :: (ts.headD default).shape.tail,
   fun ix => match ix with
     | [] => 0
     | i :: rest => (ts.getD i default).val (0 :: rest)⟩

end Torch

open Torch

/-- Python-level argument of `forward_minibatch`: a `torch.Tensor` or any other object
(`torch.is_tensor` distinguishes the two). -/
inductive PyValue where
  | tensor (t : Tensor)
  | other

/-- Model of `torch.is_tensor`. -/
def PyValue.isTensor : PyValue → Bool
  | PyValue.tensor _ => true
  | PyValue.other => false

/-- Exceptions of the forward pass: `TypeError` for non-tensor arguments, the two
`ValueError`s of the source (fewer than 3 dimensions; shape mismatch — distinguished
here because their messages differ), and the `RuntimeError` that `torch.einsum` raises
on a subscript/rank mismatch. -/
inductive DiceError where
  | typeError
  | dimError
  | shapeError
  | einsumError
deriving DecidableEq

/-- Result of one forward pass. The Python method returns only `synced`; the `unsynced`
local loss (computed and then discarded by the source) and the number of
`synchronize_across_gpus` invocations are retained for analysis. -/
structure ForwardResult where
  synced : ℚ
  unsynced : ℚ
  sync_calls : ℕ
deriving DecidableEq

/-- Model of the source function `synchronize_across_gpus`: when the torch distributed
runtime is available and a process group is in use (`distActive` models the conjunction
of the two source conditions), the tensor is all-gathered across devices by
`SyncFunction.apply` — supplied here by the ambient `gather` — and otherwise returned
unchanged. -/
def synchronize_across_gpus (distActive : Bool) (gather : Tensor → Tensor) (t : Tensor) :
    Tensor :=
  if distActive then gather t else t

/-- Dimensions `sum_across = [0, *range(2, len(shape))]` of the source: the batch
dimension and all spatial dimensions. -/
def sum_across (shape : List ℕ) : List ℕ := 0 :: List.range' 2 (shape.length - 2)

/-- Modelled from the spec: `get_class_weights` (imported from
`InnerEye.ML.utils.image_util`, which is not part of this excerpt) returns one weight per
class, `1/C` raised to the given power, "where C is the number of voxels in each class"
(docstring of `SoftDiceLoss.__init__`); the voxel count of a class is the sum of the
target over the batch and spatial dimensions, and the power is modelled as an integer
exponent so that the weights stay rational. -/
def get_class_weights (target : Tensor) (power : ℤ) : Tensor :=
  ⟨[target.shape.tail.headD 0],
   fun ix => (1 / (sumDims target (sum_across target.shape)).val [ix.headD 0]) ^ power⟩

/-- Model of `torch.einsum("ij,j->ij", a, w)`: einsum checks that the number of
subscripts matches the rank of each operand and that the sizes bound to `j` agree,
raising `RuntimeError` otherwise; on success entry `(i, j)` is `a[i, j] * w[j]`. -/
def einsum_ij_j_ij (a w : Tensor) : Except DiceError Tensor :=
  if a.shape.length = 2 ∧ w.shape.length = 1 ∧ a.shape.getD 1 0 = w.shape.getD 0 0 then
    Except.ok ⟨a.shape, fun ix => a.val ix * w.val [ix.getD 1 0]⟩
  else Except.error DiceError.einsumError

/-- Configuration fields set by `SoftDiceLoss.__init__`. The float `class_weight_power`
is modelled as an integer exponent, `none` standing for Python `None`. -/
structure SoftDiceLoss where
  eps : ℚ
  apply_softmax : Bool
  class_weight_power : Option ℤ

/-- Per-device statistic
`intersection0 = torch.sum(output * target, dim=sum_across).unsqueeze(0)`. -/
def intersection0 (output target : Tensor) : Tensor :=
  unsqueeze0 (sumDims (mul output target) (sum_across output.shape))

/-- Per-device statistic
`output_sum_square0 = torch.sum(output * output, dim=sum_across).unsqueeze(0)`. -/
def output_sum_square0 (output : Tensor) : Tensor :=
  unsqueeze0 (sumDims (mul output output) (sum_across output.shape))

/-- Per-device statistic
`target_sum_square0 = torch.sum(target * target, dim=sum_across).unsqueeze(0)`. -/
def target_sum_square0 (target : Tensor) : Tensor :=
  unsqueeze0 (sumDims (mul target target) (sum_across target.shape))

/-- Core of `SoftDiceLoss.forward_minibatch` after the type check, following the source
line by line. The synchronization environment `sync` is indexed by call site
(0: intersection, 1: class weights, 2: output sum of squares, 3: target sum of squares)
so that a distributed execution can supply the gathered value of each statistic; a
single-device execution ignores the index. -/
def SoftDiceLoss.forward_core (self : SoftDiceLoss) (expf : ℚ → ℚ)
    (sync : ℕ → Tensor → Tensor) (output0 target : Tensor) :
    Except DiceError ForwardResult :=
  if output0.shape.length < 3 then Except.error DiceError.dimError
  else if output0.shape ≠ target.shape then Except.error DiceError.shapeError
  else
    let output := if self.apply_softmax then softmax expf output0 else output0
    let inter0 := intersection0 output target
    let intersection := sumDim (sync 0 inter0) 0
    let weighted : Except DiceError (Tensor × ℕ) :=
      match self.class_weight_power with
      | none => Except.ok (intersection, 1)
      | some power =>
        if power = 0 then Except.ok (intersection, 1)
        else
          let class_weights0 := unsqueeze0 (get_class_weights target power)
          let class_weights1 := sync 1 class_weights0
          let class_weights :=
            divScalar (sumDims class_weights1 [0]) ((class_weights1.shape.headD 0 : ℚ))
          (einsum_ij_j_ij intersection class_weights).map (fun w => (w, 2))
    match weighted with
    | Except.error e => Except.error e
    | Except.ok (inter, calls) =>
      let outp_sum_square0 := output_sum_square0 output
      let outp_sum_square := sumDim (sync 2 outp_sum_square0) 0
      let targ_sum_square0 := target_sum_square0 target
      let targ_sum_square := sumDim (sync 3 targ_sum_square0) 0
      let unsyncedLoss := 1 - 2 * mean (div (addScalar inter0 self.eps)
        (addScalar (add outp_sum_square0 targ_sum_square0) self.eps))
      let syncedLoss := 1 - 2 * mean (div (addScalar inter self.eps)
        (addScalar (add outp_sum_square targ_sum_square) self.eps))
      Except.ok ⟨syncedLoss, unsyncedLoss, calls + 2⟩

/-- Model of `SoftDiceLoss.forward_minibatch`. `distActive` models
`torch.distributed.is_available() and torch.distributed.is_initialized()`, and `gather`
is the all-gather performed by `SyncFunction.apply` when distributed training is active. -/
def SoftDiceLoss.forward_minibatch (self : SoftDiceLoss) (expf : ℚ → ℚ) (distActive : Bool)
    (gather : Tensor → Tensor) (output target : PyValue) : Except DiceError ForwardResult :=
  match output, target with
  | PyValue.tensor out0, PyValue.tensor tgt =>
    self.forward_core expf (fun _ => synchronize_across_gpus distActive gather) out0 tgt
  | _, _ => Except.error DiceError.typeError

/-- Statistic a device contributes at synchronization site `site` of `forward_core`, as a
function of the device's local `(output, target)` pair. -/
def localStat (self : SoftDiceLoss) (expf : ℚ → ℚ) (site : ℕ) (dev : Tensor × Tensor) :
    Tensor :=
  let output := if self.apply_softmax then softmax expf dev.1 else dev.1
  match site with
  | 0 => intersection0 output dev.2
  | 1 => unsqueeze0 (get_class_weights dev.2 (self.class_weight_power.getD 0))
  | 2 => output_sum_square0 output
  | _ => target_sum_square0 dev.2

/-- Distributed execution of `forward_minibatch` as seen by device `k`: every device runs
the same code on its own local pair, and each `synchronize_across_gpus` call returns the
per-device values of the corresponding statistic stacked along dimension 0 — the
behaviour of `SyncFunction.apply` (all-gather followed by `torch.cat(dim=0)`). -/
def SoftDiceLoss.forward_minibatch_dist (self : SoftDiceLoss) (expf : ℚ → ℚ)
    (devices : List (Tensor × Tensor)) (k : ℕ) : Except DiceError ForwardResult :=
  self.forward_core expf
    (fun site _ => stackDevices (devices.map (localStat self expf site)))
    (devices.getD k default).1 (devices.getD k default).2

/-- Specification-side per-class statistic: the sum of the elementwise product `a * b`
over the batch dimension and all spatial dimensions, at class `c`, written directly as a
double sum. -/
def classStat (a b : Tensor) (c : ℕ) : ℚ :=
  ((List.range (a.shape.headD 0)).map (fun batch =>
    ((allIndices a.shape.tail.tail).map
      (fun six => a.val (batch :: c :: six) * b.val (batch :: c :: six))).sum)).sum

/-- Number of classes of a `Batch x Classes x ...` tensor. -/
def numClasses (t : Tensor) : ℕ := t.shape.tail.headD 0

/-- Specification-side soft Dice loss: one minus twice the mean over classes of the
smoothed ratio of the per-class statistics `sot` (intersection), `soo` and `stt`
(sums of squares). -/
def diceFormula (eps : ℚ) (classes : ℕ) (sot soo stt : ℕ → ℚ) : ℚ :=
  1 - 2 * (((List.range classes).map
    (fun c => (sot c + eps) / (soo c + stt c + eps))).sum / (classes : ℚ))

namespace SynthUNetMain

/-- Train/validation split selector passed to the dataset constructors. -/
inductive Split where
  | train
  | val
deriving DecidableEq

/-- Command line arguments of the entry script that its dataflow depends on (the parser
also accepts trainer and model arguments, which are passed through to the third-party
framework unchanged). -/
structure ScriptArgs where
  batch_size : ℕ
  debug : Bool
  azureml : Bool
deriving DecidableEq

/-- Datasets the script constructs: `Prostate2DSimpleDataset` over real labelled scans
and `SynthDataset` over generated images. Each records the index of the mounted AzureML
input dataset it reads; fixed configuration strings (csv base name, channel count, label
names) are elided. -/
inductive Dataset where
  | Prostate2DSimpleDataset (input_dataset : ℕ) (split : Split)
  | SynthDataset (input_dataset : ℕ) (split : Split) (debug : Bool)
deriving DecidableEq

/-- Whether a dataset consists of real labelled data. -/
def Dataset.isReal : Dataset → Bool
  | Dataset.Prostate2DSimpleDataset _ _ => true
  | Dataset.SynthDataset _ _ _ => false

/-- Whether a dataset consists of synthetically generated data. -/
def Dataset.isSynthetic : Dataset → Bool
  | Dataset.Prostate2DSimpleDataset _ _ => false
  | Dataset.SynthDataset _ _ _ => true

/-- Model of a `torch.utils.data.DataLoader` configuration. -/
structure DataLoader where
  dataset : Dataset
  batch_size : ℕ
  shuffle : Bool
deriving DecidableEq

/-- One `trainer.fit(model, train_dl, [synth_val_dl, real_val_dl])` invocation. -/
structure FitCall where
  train_dataloader : DataLoader
  val_dataloaders : List DataLoader
  fast_dev_run : Bool
deriving DecidableEq

/-- Python `NameError`, raised on reading `run_info` when the `--azureml` branch that
binds it did not run. -/
inductive ScriptError where
  | nameError
deriving DecidableEq

/-- Result of `submit_to_azure_if_needed`; `input_datasets` holds the two mounted input
datasets, modelled as handles 0 and 1. -/
structure RunInfo where
  input_datasets : List ℕ
deriving DecidableEq

/-- Dataflow of the `__main__` block of the script: `run_info` is bound only when
`args.azureml` is set, and is read unconditionally when the datasets are constructed, so
execution reaches `trainer.fit` only in the AzureML branch and otherwise raises
`NameError` first. The result is the list of `trainer.fit` invocations (the debug-mode
`fast_dev_run` fit followed by the main fit in debug mode, the main fit alone
otherwise). -/
def script (args : ScriptArgs) : Except ScriptError (List FitCall) :=
  let run_info : Option RunInfo := if args.azureml then some ⟨[0, 1]⟩ else none
  match run_info with
  | none => Except.error ScriptError.nameError
  | some ri =>
    let real_val_ds := Dataset.Prostate2DSimpleDataset (ri.input_datasets.getD 1 0) Split.val
    let train_ds := Dataset.SynthDataset (ri.input_datasets.getD 0 0) Split.train args.debug
    let synth_val_ds := Dataset.SynthDataset (ri.input_datasets.getD 0 0) Split.val args.debug
    let train_dl : DataLoader := ⟨train_ds, args.batch_size, true⟩
    let synth_val_dl : DataLoader := ⟨synth_val_ds, args.batch_size, false⟩
    let real_val_dl : DataLoader := ⟨real_val_ds, args.batch_size, false⟩
    let fits :=
      (if args.debug then [(⟨train_dl, [synth_val_dl, real_val_dl], true⟩ : FitCall)] else [])
        ++ [(⟨train_dl, [synth_val_dl, real_val_dl], false⟩ : FitCall)]
    Except.ok fits

end SynthUNetMain

/-! Concrete inputs used to instantiate the theorems. -/

/-- Example network output of shape `[1, 2, 1]` (one batch element, two classes, one
spatial position), whose entry at class `c` is `c`. -/
def exOutput : Tensor := ⟨[1, 2, 1], fun ix => (ix.getD 1 0 : ℚ)⟩

/-- Example target of shape `[1, 2, 1]` with all entries one. -/
def exTarget : Tensor := ⟨[1, 2, 1], fun _ => 1⟩

/-- Example 2-dimensional tensor, which the dimension check must reject. -/
def exTensor2 : Tensor := ⟨[2, 2], fun _ => 1⟩

/-- Example all-zero tensor of shape `[1, 1, 1]`. -/
def zeroTensor3 : Tensor := ⟨[1, 1, 1], fun _ => 0⟩

/-- Example loss configuration: `eps = 1`, no softmax, no class weighting. -/
def exLoss : SoftDiceLoss := ⟨1, false, none⟩

/-- Example loss configuration with class weighting enabled (`class_weight_power = 1`). -/
def exLossWeighted : SoftDiceLoss := ⟨1, false, some 1⟩

/-- Example stand-in for the exponential map (any strictly positive map works). -/
def exExp : ℚ → ℚ := fun _ => 1

/-- Example two-device input family for the distributed loss. -/
def exDevices : List (Tensor × Tensor) := [(exOutput, exTarget), (exTarget, exTarget)]

/-- Example script arguments with the `--azureml` flag set. -/
def exArgs : SynthUNetMain.ScriptArgs := ⟨32, false, true⟩

/-- Example script arguments without the `--azureml` flag. -/
def exArgsNoAml : SynthUNetMain.ScriptArgs := ⟨32, false, false⟩

/-! Helper lemmas about index enumeration, folds of `sumDim`, and means. -/

namespace Torch

lemma allIndices_length {S : List ℕ} {six : List ℕ} (h : six ∈ allIndices S) :
    six.length = S.length := by
  induction S generalizing six with
  | nil => simp [allIndices] at h; simp [h]
  | cons d ds ih =>
    simp only [allIndices, List.mem_flatMap, List.mem_map, List.mem_range] at h
    obtain ⟨i, _, jx, hjx, rfl⟩ := h
    simp [ih hjx]

lemma sum_map_flatMap {α β : Type} (l : List α) (g : α → List β) (f : β → ℚ) :
    ((l.flatMap g).map f).sum = (l.map (fun a => ((g a).map f).sum)).sum := by
  induction l with
  | nil => simp
  | cons a l ih => simp [List.flatMap_cons, ih]

lemma sum_allIndices_snoc (dl : ℕ) (S : List ℕ) :
    ∀ f : List ℕ → ℚ, ((allIndices (S ++ [dl])).map f).sum
      = ((allIndices S).map
          (fun six => ((List.range dl).map (fun i => f (six ++ [i]))).sum)).sum := by
  induction S with
  | nil =>
    intro f
    simp [allIndices, sum_map_flatMap]
  | cons d S ih =>
    intro f
    simp only [List.cons_append, allIndices, sum_map_flatMap, List.map_map, Function.comp_def]
    refine congrArg List.sum (List.map_congr_left (fun a _ => ?_))
    simpa using ih (fun x => f (a :: x))

lemma sum_range_getD {α : Type} (l : List α) (d : α) (f : α → ℚ) :
    ((List.range l.length).map (fun i => f (l.getD i d))).sum = (l.map f).sum := by
  induction l with
  | nil => simp
  | cons a l ih =>
    rw [List.length_cons, List.range_succ_eq_map]
    simp only [List.map_cons, List.map_map, List.sum_cons, Function.comp_def,
      List.getD_cons_zero, List.getD_cons_succ]
    rw [ih]

lemma eraseIdx_concat_self {α : Type} (l : List α) (x : α) :
    (l ++ [x]).eraseIdx l.length = l := by
  induction l with
  | nil => rfl
  | cons a l ih => simp [ih]

lemma getD_concat_self {α : Type} (l : List α) (x d : α) : (l ++ [x]).getD l.length d = x := by
  induction l with
  | nil => rfl
  | cons a l ih => simp [ih]

lemma sumDim_unsqueeze0 (u : Tensor) : sumDim (unsqueeze0 u) 0 = u := by
  unfold sumDim unsqueeze0
  cases u with
  | mk s v => simp [List.insertIdx_zero]

end Torch

namespace Torch

lemma foldl_sumDim_spec (R : List ℕ) :
    ∀ (q : List ℕ) (t : Tensor), t.shape = q ++ R.reverse →
      (((List.range' q.length R.length).reverse.foldl sumDim t).shape = q ∧
       ∀ ix : List ℕ, ix.length = q.length →
         ((List.range' q.length R.length).reverse.foldl sumDim t).val ix
           = ((allIndices R.reverse).map (fun six => t.val (ix ++ six))).sum) := by
  induction R with
  | nil =>
    intro q t ht
    refine ⟨by simpa using ht, fun ix _ => ?_⟩
    simp [allIndices]
  | cons dl R ih =>
    intro q t ht
    have hlen : (q ++ R.reverse).length = q.length + R.length := by simp
    have ht' : t.shape = (q ++ R.reverse) ++ [dl] := by
      simpa [List.append_assoc] using ht
    have hdims : (List.range' q.length (dl :: R).length).reverse
        = (q.length + R.length) :: (List.range' q.length R.length).reverse := by
      simp [List.range'_1_concat]
    obtain ⟨hsh, hval⟩ := ih q (sumDim t (q.length + R.length)) (by
      show t.shape.eraseIdx (q.length + R.length) = q ++ R.reverse
      rw [ht', ← hlen, eraseIdx_concat_self])
    rw [hdims, List.foldl_cons]
    refine ⟨hsh, fun ix hix => ?_⟩
    rw [hval ix hix, List.reverse_cons, sum_allIndices_snoc]
    refine congrArg List.sum (List.map_congr_left (fun six hsix => ?_))
    have hlen2 : (ix ++ six).length = q.length + R.length := by
      simp [hix, allIndices_length hsix]
    have hgetD : t.shape.getD (q.length + R.length) 0 = dl := by
      rw [ht', ← hlen, getD_concat_self]
    show ((List.range (t.shape.getD (q.length + R.length) 0)).map
        (fun i => t.val ((ix ++ six).insertIdx (q.length + R.length) i))).sum = _
    rw [hgetD]
    refine congrArg List.sum (List.map_congr_left (fun i _ => ?_))
    rw [← hlen2, List.insertIdx_length_self, List.append_assoc]

lemma mean_shape_single (t : Tensor) (C : ℕ) (h : t.shape = [C]) :
    mean t = ((List.range C).map (fun c => t.val [c])).sum / (C : ℚ) := by
  unfold mean sumAll numel
  rw [h]
  simp [allIndices, sum_map_flatMap]

lemma mean_shape_one_cons (t : Tensor) (s : List ℕ) (h : t.shape = 1 :: s) :
    mean t = ((allIndices s).map (fun ix => t.val (0 :: ix))).sum / (s.prod : ℚ) := by
  unfold mean sumAll numel
  rw [h]
  have hr : List.range 1 = [0] := rfl
  simp [allIndices, sum_map_flatMap, hr, Function.comp_def]

lemma sumDim_stackDevices_shape (ts : List Tensor) :
    (sumDim (stackDevices ts) 0).shape = (ts.headD default).shape.tail := rfl

lemma sumDim_stackDevices_val (ts : List Tensor) (ix : List ℕ) :
    (sumDim (stackDevices ts) 0).val ix = (ts.map (fun u => u.val (0 :: ix))).sum := by
  show ((List.range ((stackDevices ts).shape.getD 0 0)).map
      (fun i => (stackDevices ts).val (ix.insertIdx 0 i))).sum = _
  have h2 : ∀ i : ℕ, (stackDevices ts).val (ix.insertIdx 0 i)
      = (ts.getD i default).val (0 :: ix) := fun i => rfl
  simp only [h2]
  exact sum_range_getD ts default (fun u => u.val (0 :: ix))

lemma sumDim_val_nonneg {t : Tensor} (h : ∀ ix, 0 ≤ t.val ix) (d : ℕ) (ix : List ℕ) :
    0 ≤ (sumDim t d).val ix := by
  refine List.sum_nonneg ?_
  intro x hx
  simp only [List.mem_map] at hx
  obtain ⟨i, _, rfl⟩ := hx
  exact h _

lemma foldl_sumDim_val_nonneg (dims : List ℕ) {t : Tensor} (h : ∀ ix, 0 ≤ t.val ix) :
    ∀ ix, 0 ≤ (dims.foldl sumDim t).val ix := by
  induction dims generalizing t with
  | nil => exact h
  | cons d dims ih => exact ih (fun ix => sumDim_val_nonneg h d ix)

lemma sumDims_val_nonneg {t : Tensor} (h : ∀ ix, 0 ≤ t.val ix) (dims : List ℕ)
    (ix : List ℕ) : 0 ≤ (sumDims t dims).val ix :=
  foldl_sumDim_val_nonneg dims.reverse h ix

lemma softmax_val_nonneg (expf : ℚ → ℚ) (hexp : ∀ x, 0 < expf x) (t : Tensor)
    (ix : List ℕ) : 0 ≤ (softmax expf t).val ix := by
  show 0 ≤ expf (t.val ix) /
    ((List.range (t.shape.tail.headD 0)).map (fun j => expf (t.val (ix.set 1 j)))).sum
  refine div_nonneg (le_of_lt (hexp _)) (List.sum_nonneg ?_)
  intro x hx
  simp only [List.mem_map] at hx
  obtain ⟨j, _, rfl⟩ := hx
  exact le_of_lt (hexp _)

lemma unsqueeze0_val_nonneg {t : Tensor} (h : ∀ ix, 0 ≤ t.val ix) (ix : List ℕ) :
    0 ≤ (unsqueeze0 t).val ix := h ix.tail

end Torch

lemma sum_across_cons (B C : ℕ) (S : List ℕ) :
    sum_across (B :: C :: S) = 0 :: List.range' 2 S.length := by
  have h : (B :: C :: S).length - 2 = S.length := by simp
  simp [sum_across, h]

lemma sumDims_sum_across_shape (t : Tensor) (B C : ℕ) (S : List ℕ)
    (h : t.shape = B :: C :: S) : (sumDims t (sum_across t.shape)).shape = [C] := by
  have hfold : sumDims t (sum_across t.shape)
      = sumDim ((List.range' 2 S.length).reverse.foldl sumDim t) 0 := by
    rw [h, sum_across_cons]
    unfold sumDims
    rw [List.reverse_cons, List.foldl_append]
    rfl
  have hspec := foldl_sumDim_spec S.reverse [B, C] t (by rw [h]; simp)
  simp only [List.reverse_reverse, List.length_reverse,
    show ([B, C] : List ℕ).length = 2 from rfl] at hspec
  rw [hfold]
  show (((List.range' 2 S.length).reverse.foldl sumDim t).shape).eraseIdx 0 = [C]
  rw [hspec.1]
  rfl

lemma sumDims_sum_across_val (t : Tensor) (B C : ℕ) (S : List ℕ)
    (h : t.shape = B :: C :: S) (c : ℕ) :
    (sumDims t (sum_across t.shape)).val [c]
      = ((List.range B).map
          (fun batch => ((allIndices S).map (fun six => t.val (batch :: c :: six))).sum)).sum := by
  have hfold : sumDims t (sum_across t.shape)
      = sumDim ((List.range' 2 S.length).reverse.foldl sumDim t) 0 := by
    rw [h, sum_across_cons]
    unfold sumDims
    rw [List.reverse_cons, List.foldl_append]
    rfl
  have hspec := foldl_sumDim_spec S.reverse [B, C] t (by rw [h]; simp)
  simp only [List.reverse_reverse, List.length_reverse,
    show ([B, C] : List ℕ).length = 2 from rfl] at hspec
  obtain ⟨hsh, hval⟩ := hspec
  rw [hfold]
  show ((List.range (((List.range' 2 S.length).reverse.foldl sumDim t).shape.getD 0 0)).map
      (fun batch => ((List.range' 2 S.length).reverse.foldl sumDim t).val
        (([c] : List ℕ).insertIdx 0 batch))).sum = _
  rw [hsh]
  refine congrArg List.sum (List.map_congr_left (fun batch _ => ?_))
  have hins : (([c] : List ℕ).insertIdx 0 batch) = [batch, c] := rfl
  rw [hins, hval [batch, c] rfl]
  rfl

lemma sumDims_mul_sum_across_val (a b : Tensor) (B C : ℕ) (S : List ℕ)
    (h : a.shape = B :: C :: S) (c : ℕ) :
    (sumDims (mul a b) (sum_across a.shape)).val [c] = classStat a b c := by
  refine (sumDims_sum_across_val (mul a b) B C S h c).trans ?_
  simp [classStat, Torch.mul, h]

lemma synchronize_across_gpus_false (gather : Tensor → Tensor) (t : Tensor) :
    synchronize_across_gpus false gather t = t := rfl

lemma effective_output_shape (self : SoftDiceLoss) (expf : ℚ → ℚ) (out0 : Tensor) :
    (if self.apply_softmax then softmax expf out0 else out0).shape = out0.shape := by
  by_cases h : self.apply_softmax
  · simp [h, softmax]
  · simp [h]

lemma forward_core_eval (self : SoftDiceLoss) (expf : ℚ → ℚ) (sync : ℕ → Tensor → Tensor)
    (out0 tgt : Tensor)
    (hcw : self.class_weight_power = none ∨ self.class_weight_power = some 0)
    (hdim : ¬ out0.shape.length < 3) (hsh : out0.shape = tgt.shape) :
    self.forward_core expf sync out0 tgt
      = Except.ok
          ⟨1 - 2 * mean (div
              (addScalar (sumDim (sync 0 (intersection0
                (if self.apply_softmax then softmax expf out0 else out0) tgt)) 0) self.eps)
              (addScalar (add
                (sumDim (sync 2 (output_sum_square0
                  (if self.apply_softmax then softmax expf out0 else out0))) 0)
                (sumDim (sync 3 (target_sum_square0 tgt)) 0)) self.eps)),
           1 - 2 * mean (div
              (addScalar (intersection0
                (if self.apply_softmax then softmax expf out0 else out0) tgt) self.eps)
              (addScalar (add
                (output_sum_square0 (if self.apply_softmax then softmax expf out0 else out0))
                (target_sum_square0 tgt)) self.eps)),
           3⟩ := by
  simp only [SoftDiceLoss.forward_core]
  rw [if_neg hdim, if_neg (by simp [hsh])]
  rcases hcw with h | h
  · simp only [h]
  · simp only [h]
    rfl

lemma einsum_map_error (a w : Tensor) (e : DiceError)
    (h : (einsum_ij_j_ij a w).map (fun v => (v, 2)) = Except.error e) :
    e = DiceError.einsumError := by
  unfold einsum_ij_j_ij at h
  by_cases hc : a.shape.length = 2 ∧ w.shape.length = 1 ∧ a.shape.getD 1 0 = w.shape.getD 0 0
  · rw [if_pos hc] at h
    simp [Except.map] at h
  · rw [if_neg hc] at h
    simp only [Except.map] at h
    injection h with h
    exact h.symm

lemma forward_core_checks_result (self : SoftDiceLoss) (expf : ℚ → ℚ)
    (sync : ℕ → Tensor → Tensor) (out0 tgt : Tensor)
    (hdim : ¬ out0.shape.length < 3) (hsh : out0.shape = tgt.shape) :
    (∃ r, self.forward_core expf sync out0 tgt = Except.ok r) ∨
      self.forward_core expf sync out0 tgt = Except.error DiceError.einsumError := by
  simp only [SoftDiceLoss.forward_core]
  rw [if_neg hdim, if_neg (by simp [hsh])]
  cases hcw : self.class_weight_power with
  | none => exact Or.inl ⟨_, rfl⟩
  | some p =>
    by_cases hp : p = 0
    · subst hp
      simp only [if_pos rfl]
      exact Or.inl ⟨_, rfl⟩
    · simp only [if_neg hp]
      split
      · next e hE =>
        refine Or.inr ?_
        rw [einsum_map_error _ _ e hE]
      · next inter calls hE =>
        exact Or.inl ⟨_, rfl⟩

lemma mean_shape_pair (t : Tensor) (C : ℕ) (h : t.shape = [1, C]) :
    mean t = ((List.range C).map (fun c => t.val [0, c])).sum / (C : ℚ) := by
  unfold mean sumAll numel
  rw [h]
  have hr : List.range 1 = [0] := rfl
  simp [allIndices, sum_map_flatMap, hr, Function.comp_def]

lemma sumDims_mul_sum_across_shape (a b : Tensor) (B C : ℕ) (S : List ℕ)
    (h : a.shape = B :: C :: S) :
    (sumDims (mul a b) (sum_across a.shape)).shape = [C] :=
  sumDims_sum_across_shape (mul a b) B C S h

lemma forward_minibatch_single_eval (self : SoftDiceLoss) (expf : ℚ → ℚ)
    (gather : Tensor → Tensor) (out0 tgt : Tensor) (B C : ℕ) (S : List ℕ)
    (hcw : self.class_weight_power = none ∨ self.class_weight_power = some 0)
    (hdim : ¬ out0.shape.length < 3)
    (hshape : out0.shape = B :: C :: S) (hsh : out0.shape = tgt.shape) :
    self.forward_minibatch expf false gather (PyValue.tensor out0) (PyValue.tensor tgt)
      = Except.ok
          ⟨diceFormula self.eps C
             (fun c => classStat (if self.apply_softmax then softmax expf out0 else out0) tgt c)
             (fun c => classStat (if self.apply_softmax then softmax expf out0 else out0)
               (if self.apply_softmax then softmax expf out0 else out0) c)
             (fun c => classStat tgt tgt c),
           diceFormula self.eps C
             (fun c => classStat (if self.apply_softmax then softmax expf out0 else out0) tgt c)
             (fun c => classStat (if self.apply_softmax then softmax expf out0 else out0)
               (if self.apply_softmax then softmax expf out0 else out0) c)
             (fun c => classStat tgt tgt c),
           3⟩ := by
  have hOT : (if self.apply_softmax then softmax expf out0 else out0).shape = B :: C :: S :=
    (effective_output_shape self expf out0).trans hshape
  have htgt : tgt.shape = B :: C :: S := by rw [← hsh, hshape]
  show self.forward_core expf (fun _ => synchronize_across_gpus false gather) out0 tgt = _
  rw [forward_core_eval self expf _ out0 tgt hcw hdim hsh]
  simp only [synchronize_across_gpus_false, intersection0, output_sum_square0,
    target_sum_square0, sumDim_unsqueeze0]
  set OT := if self.apply_softmax then softmax expf out0 else out0 with hOTdef
  set Uot := sumDims (mul OT tgt) (sum_across OT.shape) with hUotDef
  set Uoo := sumDims (mul OT OT) (sum_across OT.shape) with hUooDef
  set Utt := sumDims (mul tgt tgt) (sum_across tgt.shape) with hUttDef
  have hU1 : Uot.shape = [C] := by
    rw [hUotDef]; exact sumDims_mul_sum_across_shape OT tgt B C S hOT
  have hsynced : mean (div (addScalar Uot self.eps) (addScalar (add Uoo Utt) self.eps))
      = ((List.range C).map (fun c => (classStat OT tgt c + self.eps)
          / (classStat OT OT c + classStat tgt tgt c + self.eps))).sum / (C : ℚ) := by
    rw [mean_shape_single (div (addScalar Uot self.eps)
      (addScalar (add Uoo Utt) self.eps)) C hU1]
    refine congrArg (fun x : ℚ => x / (C : ℚ))
      (congrArg List.sum (List.map_congr_left (fun c _ => ?_)))
    show (Uot.val [c] + self.eps) / (Uoo.val [c] + Utt.val [c] + self.eps) = _
    rw [hUotDef, hUooDef, hUttDef,
      sumDims_mul_sum_across_val OT tgt B C S hOT c,
      sumDims_mul_sum_across_val OT OT B C S hOT c,
      sumDims_mul_sum_across_val tgt tgt B C S htgt c]
  have hunsynced : mean (div (addScalar (unsqueeze0 Uot) self.eps)
        (addScalar (add (unsqueeze0 Uoo) (unsqueeze0 Utt)) self.eps))
      = ((List.range C).map (fun c => (classStat OT tgt c + self.eps)
          / (classStat OT OT c + classStat tgt tgt c + self.eps))).sum / (C : ℚ) := by
    rw [mean_shape_pair (div (addScalar (unsqueeze0 Uot) self.eps)
        (addScalar (add (unsqueeze0 Uoo) (unsqueeze0 Utt)) self.eps)) C (by
      show (1 :: Uot.shape : List ℕ) = [1, C]
      rw [hU1])]
    refine congrArg (fun x : ℚ => x / (C : ℚ))
      (congrArg List.sum (List.map_congr_left (fun c _ => ?_)))
    show (Uot.val [c] + self.eps) / (Uoo.val [c] + Utt.val [c] + self.eps) = _
    rw [hUotDef, hUooDef, hUttDef,
      sumDims_mul_sum_across_val OT tgt B C S hOT c,
      sumDims_mul_sum_across_val OT OT B C S hOT c,
      sumDims_mul_sum_across_val tgt tgt B C S htgt c]
  rw [hsynced, hunsynced]
  rfl

lemma forward_core_dim_error (self : SoftDiceLoss) (expf : ℚ → ℚ)
    (sync : ℕ → Tensor → Tensor) (out0 tgt : Tensor) (hdim : out0.shape.length < 3) :
    self.forward_core expf sync out0 tgt = Except.error DiceError.dimError := by
  simp only [SoftDiceLoss.forward_core]
  rw [if_pos hdim]

lemma forward_core_shape_error (self : SoftDiceLoss) (expf : ℚ → ℚ)
    (sync : ℕ → Tensor → Tensor) (out0 tgt : Tensor) (hdim : ¬ out0.shape.length < 3)
    (hsh : out0.shape ≠ tgt.shape) :
    self.forward_core expf sync out0 tgt = Except.error DiceError.shapeError := by
  simp only [SoftDiceLoss.forward_core]
  rw [if_neg hdim, if_pos hsh]

lemma forward_core_weighted_single_error (self : SoftDiceLoss) (expf : ℚ → ℚ)
    (gather : Tensor → Tensor) (out0 tgt : Tensor) (p : ℤ)
    (hcw : self.class_weight_power = some p) (hp : p ≠ 0)
    (hdim : ¬ out0.shape.length < 3) (hsh : out0.shape = tgt.shape) :
    self.forward_core expf (fun _ => synchronize_across_gpus false gather) out0 tgt
      = Except.error DiceError.einsumError := by
  obtain ⟨B, C, S, hshape⟩ : ∃ B C S, out0.shape = B :: C :: S := by
    cases h1 : out0.shape with
    | nil => rw [h1] at hdim; simp at hdim
    | cons B rest =>
      cases h2 : rest with
      | nil => rw [h1, h2] at hdim; simp at hdim
      | cons C S => exact ⟨B, C, S, rfl⟩
  have hOT : (if self.apply_softmax then softmax expf out0 else out0).shape = B :: C :: S :=
    (effective_output_shape self expf out0).trans hshape
  simp only [SoftDiceLoss.forward_core]
  rw [if_neg hdim, if_neg (by simp [hsh])]
  simp only [hcw, if_neg hp, synchronize_across_gpus_false, intersection0, sumDim_unsqueeze0]
  have hU : (sumDims (mul (if self.apply_softmax then softmax expf out0 else out0) tgt)
      (sum_across (if self.apply_softmax then softmax expf out0 else out0).shape)).shape
      = [C] := sumDims_mul_sum_across_shape _ tgt B C S hOT
  unfold einsum_ij_j_ij
  rw [if_neg (by simp [hU])]
  rfl

/-! Theorems settling the claims. -/

/-- C9: running the training entry script without the `--azureml` flag fails with a
`NameError` before any training starts: `run_info` is assigned only inside the
`if args.azureml:` branch yet `run_info.input_datasets` is read unconditionally when the
datasets are constructed, so no `trainer.fit` invocation is reached. -/
theorem script_nameerror_without_azureml (args : SynthUNetMain.ScriptArgs)
    (h : args.azureml = false) :
    SynthUNetMain.script args = Except.error SynthUNetMain.ScriptError.nameError := by
  simp [SynthUNetMain.script, h]

/-- Witness for C9 at concrete arguments. -/
theorem script_nameerror_without_azureml_witness :
    SynthUNetMain.script exArgsNoAml = Except.error SynthUNetMain.ScriptError.nameError :=
  script_nameerror_without_azureml exArgsNoAml rfl

/-- C7 counterexample: at concrete arguments (AzureML on, debug off) the training
DataLoader passed to `trainer.fit` draws only from the synthetic dataset — the dataset of
the training loader of every fit call is not real labelled data — refuting the claim
that the training loader draws from both the synthetic and the real dataset. -/
theorem script_train_loader_not_mixed_cex :
    (SynthUNetMain.script exArgs).map
        (fun fits => fits.map (fun f => f.train_dataloader.dataset.isReal))
      = Except.ok [false]
    ∧ (SynthUNetMain.script exArgs).map
        (fun fits => fits.map (fun f => f.train_dataloader.dataset.isSynthetic))
      = Except.ok [true] :=
  ⟨rfl, rfl⟩

/-- C7 (amended): in every `trainer.fit` invocation of the script, the training
DataLoader draws only from the synthetic dataset; the real labelled dataset appears only
as the second validation loader, next to a synthetic validation loader. -/
theorem script_train_loader_synthetic_only (args : SynthUNetMain.ScriptArgs)
    (h : args.azureml = true) :
    ∃ fits, SynthUNetMain.script args = Except.ok fits ∧
      ∀ f ∈ fits, f.train_dataloader.dataset.isSynthetic = true ∧
        f.train_dataloader.dataset.isReal = false ∧
        f.val_dataloaders.map (fun dl => dl.dataset.isReal) = [false, true] := by
  simp only [SynthUNetMain.script, h, if_true]
  by_cases hdbg : args.debug
  · simp only [if_pos hdbg, List.cons_append, List.nil_append]
    refine ⟨_, rfl, ?_⟩
    intro f hf
    simp only [List.mem_cons, List.not_mem_nil, or_false] at hf
    rcases hf with rfl | rfl <;>
      exact ⟨rfl, rfl, rfl⟩
  · simp only [if_neg hdbg, List.nil_append]
    refine ⟨_, rfl, ?_⟩
    intro f hf
    simp only [List.mem_cons, List.not_mem_nil, or_false] at hf
    rcases hf with rfl
    exact ⟨rfl, rfl, rfl⟩

/-- Witness for C7's amended statement at concrete arguments. -/
theorem script_train_loader_synthetic_only_witness :
    ∃ fits, SynthUNetMain.script exArgs = Except.ok fits ∧
      ∀ f ∈ fits, f.train_dataloader.dataset.isSynthetic = true ∧
        f.train_dataloader.dataset.isReal = false ∧
        f.val_dataloaders.map (fun dl => dl.dataset.isReal) = [false, true] :=
  script_train_loader_synthetic_only exArgs rfl

/-- C3 counterexample: at a concrete valid input (no class weighting), one forward pass
performs three `synchronize_across_gpus` calls, not exactly one. -/
theorem softDice_sync_call_count_cex :
    (exLoss.forward_minibatch exExp false id (PyValue.tensor exOutput)
        (PyValue.tensor exTarget)).map (fun r => r.sync_calls) ≠ Except.ok 1
    ∧ (exLoss.forward_minibatch exExp false id (PyValue.tensor exOutput)
        (PyValue.tensor exTarget)).map (fun r => r.sync_calls) = Except.ok 3 := by
  have h3 : (exLoss.forward_minibatch exExp false id (PyValue.tensor exOutput)
      (PyValue.tensor exTarget)).map (fun r => r.sync_calls) = Except.ok 3 := rfl
  refine ⟨?_, h3⟩
  rw [h3]
  simp

/-- C3 (amended): each synchronized statistic gets its own collective-reduction call: a
forward pass that completes without class weighting performs exactly three
`synchronize_across_gpus` calls — one each for the intersection, the output sum of
squares and the target sum of squares (a fourth call would synchronize the class
weights, but that path never completes, see the einsum error). -/
theorem softDice_three_sync_calls (self : SoftDiceLoss) (expf : ℚ → ℚ) (distActive : Bool)
    (gather : Tensor → Tensor) (out0 tgt : Tensor)
    (hcw : self.class_weight_power = none)
    (hdim : ¬ out0.shape.length < 3) (hsh : out0.shape = tgt.shape) :
    (self.forward_minibatch expf distActive gather (PyValue.tensor out0)
        (PyValue.tensor tgt)).map (fun r => r.sync_calls) = Except.ok 3 := by
  show (self.forward_core expf (fun _ => synchronize_across_gpus distActive gather)
      out0 tgt).map (fun r => r.sync_calls) = Except.ok 3
  rw [forward_core_eval self expf _ out0 tgt (Or.inl hcw) hdim hsh]
  rfl

/-- Witness for C3's amended statement at a concrete input. -/
theorem softDice_three_sync_calls_witness :
    (exLoss.forward_minibatch exExp false id (PyValue.tensor exOutput)
        (PyValue.tensor exTarget)).map (fun r => r.sync_calls) = Except.ok 3 :=
  softDice_three_sync_calls exLoss exExp false id exOutput exTarget rfl (by decide) rfl

/-- C5: with a nonzero `class_weight_power` the forward pass raises the `RuntimeError`
of `torch.einsum` at a concrete valid input: `intersection` is one-dimensional of shape
`[classes]` after `torch.sum(dim=0)`, while the equation `"ij,j->ij"` requires a
two-dimensional first operand, so the class-weighted loss is never produced. -/
theorem softDice_weighting_raises_einsum_error :
    exLossWeighted.forward_minibatch exExp false id (PyValue.tensor exOutput)
        (PyValue.tensor exTarget) = Except.error DiceError.einsumError := by
  have h := forward_core_weighted_single_error exLossWeighted exExp id exOutput exTarget 1
    rfl (by decide) (by decide) rfl
  exact h

lemma shape_decompose {l : List ℕ} (h : ¬ l.length < 3) : ∃ B C S, l = B :: C :: S := by
  match l, h with
  | B :: C :: S, _ => exact ⟨B, C, S, rfl⟩
  | [], h => simp at h
  | [B], h => simp at h

lemma classStat_comm (a b : Tensor) (h : a.shape = b.shape) (c : ℕ) :
    classStat a b c = classStat b a c := by
  unfold classStat
  rw [h]
  refine congrArg List.sum (List.map_congr_left (fun batch _ => ?_))
  refine congrArg List.sum (List.map_congr_left (fun six _ => ?_))
  rw [mul_comm]

lemma diceFormula_denom_comm (eps : ℚ) (C : ℕ) (sot soo stt : ℕ → ℚ) :
    diceFormula eps C sot soo stt = diceFormula eps C sot stt soo := by
  unfold diceFormula
  refine congrArg (fun x : ℚ => 1 - 2 * (x / (C : ℚ)))
    (congrArg List.sum (List.map_congr_left (fun c _ => ?_)))
  rw [add_comm (soo c) (stt c)]

/-- C1: with no class weighting and with distributed training not active,
`forward_minibatch` returns `1 - 2 * mean_c ((S_ot c + eps) / (S_oo c + S_tt c + eps))`,
where `S_ot`, `S_oo`, `S_tt` are the per-class sums of `output*target`, `output*output`
and `target*target` over the batch dimension and all spatial dimensions; with
`apply_softmax` set, the output is first replaced by its softmax along dimension 1. -/
theorem softDice_forward_single_device_formula (self : SoftDiceLoss) (expf : ℚ → ℚ)
    (gather : Tensor → Tensor) (out0 tgt : Tensor)
    (hcw : self.class_weight_power = none)
    (hdim : 3 ≤ out0.shape.length) (hsh : out0.shape = tgt.shape) :
    (self.forward_minibatch expf false gather (PyValue.tensor out0)
        (PyValue.tensor tgt)).map (fun r => r.synced)
      = Except.ok (diceFormula self.eps (numClasses out0)
          (fun c => classStat (if self.apply_softmax then softmax expf out0 else out0) tgt c)
          (fun c => classStat (if self.apply_softmax then softmax expf out0 else out0)
            (if self.apply_softmax then softmax expf out0 else out0) c)
          (fun c => classStat tgt tgt c)) := by
  have hdim' : ¬ out0.shape.length < 3 := by omega
  obtain ⟨B, C, S, hshape⟩ := shape_decompose hdim'
  rw [forward_minibatch_single_eval self expf gather out0 tgt B C S (Or.inl hcw) hdim'
    hshape hsh]
  have hC : numClasses out0 = C := by simp [numClasses, hshape]
  rw [hC]
  rfl

/-- Witness for C1 at a concrete input. -/
theorem softDice_forward_single_device_formula_witness :
    (exLoss.forward_minibatch exExp false id (PyValue.tensor exOutput)
        (PyValue.tensor exTarget)).map (fun r => r.synced)
      = Except.ok (diceFormula exLoss.eps (numClasses exOutput)
          (fun c => classStat
            (if exLoss.apply_softmax then softmax exExp exOutput else exOutput) exTarget c)
          (fun c => classStat
            (if exLoss.apply_softmax then softmax exExp exOutput else exOutput)
            (if exLoss.apply_softmax then softmax exExp exOutput else exOutput) c)
          (fun c => classStat exTarget exTarget c)) :=
  softDice_forward_single_device_formula exLoss exExp id exOutput exTarget rfl
    (by decide) rfl

/-- C6: when distributed training is not available or not initialized,
`synchronize_across_gpus` is the identity on its input tensor, and consequently the
synced loss value returned by `forward_minibatch` equals the unsynced loss value
computed from the local per-device statistics alone. -/
theorem softDice_sync_identity_single_device :
    (∀ (gather : Tensor → Tensor) (t : Tensor),
        synchronize_across_gpus false gather t = t)
    ∧ ∀ (self : SoftDiceLoss) (expf : ℚ → ℚ) (gather : Tensor → Tensor)
        (output target : PyValue),
        (self.forward_minibatch expf false gather output target).map (fun r => r.synced)
          = (self.forward_minibatch expf false gather output target).map
              (fun r => r.unsynced) := by
  refine ⟨fun gather t => rfl, fun self expf gather output target => ?_⟩
  cases output with
  | other => rfl
  | tensor out0 =>
    cases target with
    | other => rfl
    | tensor tgt =>
      by_cases hdim : out0.shape.length < 3
      · have he : self.forward_minibatch expf false gather (PyValue.tensor out0)
            (PyValue.tensor tgt) = Except.error DiceError.dimError :=
          forward_core_dim_error self expf
            (fun _ => synchronize_across_gpus false gather) out0 tgt hdim
        rw [he]
        rfl
      · by_cases hsh : out0.shape = tgt.shape
        · obtain ⟨B, C, S, hshape⟩ := shape_decompose hdim
          cases hcw : self.class_weight_power with
          | none =>
            rw [forward_minibatch_single_eval self expf gather out0 tgt B C S
              (Or.inl hcw) hdim hshape hsh]
            rfl
          | some p =>
            by_cases hp : p = 0
            · subst hp
              rw [forward_minibatch_single_eval self expf gather out0 tgt B C S
                (Or.inr hcw) hdim hshape hsh]
              rfl
            · have he : self.forward_minibatch expf false gather (PyValue.tensor out0)
                  (PyValue.tensor tgt) = Except.error DiceError.einsumError :=
                forward_core_weighted_single_error self expf gather out0 tgt p hcw hp
                  hdim hsh
              rw [he]
              rfl
        · have he : self.forward_minibatch expf false gather (PyValue.tensor out0)
              (PyValue.tensor tgt) = Except.error DiceError.shapeError :=
            forward_core_shape_error self expf
              (fun _ => synchronize_across_gpus false gather) out0 tgt hdim hsh
          rw [he]
          rfl

/-- C4: for positive `eps` and elementwise nonnegative inputs (the post-softmax output is
nonnegative for every strictly positive exponential), both denominators appearing in
`forward_minibatch` on single-device execution — the synchronized
`output_sum_square + target_sum_square + eps` and its unsynced counterpart — are strictly
positive at every index, so the divisions of the loss never divide by zero, including
for identically zero inputs. -/
theorem softDice_denominators_positive (self : SoftDiceLoss) (expf : ℚ → ℚ)
    (gather : Tensor → Tensor) (out0 tgt : Tensor)
    (heps : 0 < self.eps) (hexp : ∀ x, 0 < expf x)
    (hout : ∀ ix, 0 ≤ out0.val ix) (htgt : ∀ ix, 0 ≤ tgt.val ix)
    (_hsh : out0.shape = tgt.shape) :
    (∀ ix, 0 < (addScalar (add
        (output_sum_square0 (if self.apply_softmax then softmax expf out0 else out0))
        (target_sum_square0 tgt)) self.eps).val ix)
    ∧ (∀ ix, 0 < (addScalar (add
        (sumDim (synchronize_across_gpus false gather
          (output_sum_square0 (if self.apply_softmax then softmax expf out0 else out0))) 0)
        (sumDim (synchronize_across_gpus false gather (target_sum_square0 tgt)) 0))
        self.eps).val ix) := by
  have hOTnn : ∀ ix, 0 ≤ (if self.apply_softmax then softmax expf out0 else out0).val ix := by
    by_cases h : self.apply_softmax
    · rw [if_pos h]; exact softmax_val_nonneg expf hexp out0
    · rw [if_neg h]; exact hout
  have hA : ∀ ix, 0 ≤ (output_sum_square0
      (if self.apply_softmax then softmax expf out0 else out0)).val ix :=
    fun ix => unsqueeze0_val_nonneg
      (fun jx => sumDims_val_nonneg (fun kx => mul_nonneg (hOTnn kx) (hOTnn kx)) _ jx) ix
  have hB : ∀ ix, 0 ≤ (target_sum_square0 tgt).val ix :=
    fun ix => unsqueeze0_val_nonneg
      (fun jx => sumDims_val_nonneg (fun kx => mul_nonneg (htgt kx) (htgt kx)) _ jx) ix
  constructor
  · intro ix
    exact add_pos_of_nonneg_of_pos (add_nonneg (hA ix) (hB ix)) heps
  · intro ix
    simp only [synchronize_across_gpus_false]
    exact add_pos_of_nonneg_of_pos
      (add_nonneg (sumDim_val_nonneg hA 0 ix) (sumDim_val_nonneg hB 0 ix)) heps

/-- Witness for C4 at identically zero input tensors. -/
theorem softDice_denominators_positive_witness :
    0 < (addScalar (add
        (output_sum_square0
          (if exLoss.apply_softmax then softmax exExp zeroTensor3 else zeroTensor3))
        (target_sum_square0 zeroTensor3)) exLoss.eps).val [0, 0] :=
  (softDice_denominators_positive exLoss exExp id zeroTensor3 zeroTensor3 zero_lt_one
    (fun _ => zero_lt_one) (fun _ => le_refl 0) (fun _ => le_refl 0) rfl).1 [0, 0]

/-- C10: with `apply_softmax = False`, no class weighting and single-device execution,
the loss is symmetric in its two arguments: swapping output and target yields the same
result, because the intersection term is symmetric and the two sum-of-squares terms swap
within a sum. -/
theorem softDice_symmetric (self : SoftDiceLoss) (expf : ℚ → ℚ) (gather : Tensor → Tensor)
    (out0 tgt : Tensor) (hsm : self.apply_softmax = false)
    (hcw : self.class_weight_power = none)
    (hdim : 3 ≤ out0.shape.length) (hsh : out0.shape = tgt.shape) :
    self.forward_minibatch expf false gather (PyValue.tensor out0) (PyValue.tensor tgt)
      = self.forward_minibatch expf false gather (PyValue.tensor tgt)
          (PyValue.tensor out0) := by
  have hdim' : ¬ out0.shape.length < 3 := by omega
  obtain ⟨B, C, S, hshape⟩ := shape_decompose hdim'
  have htshape : tgt.shape = B :: C :: S := by rw [← hsh, hshape]
  have hdim2 : ¬ tgt.shape.length < 3 := by rw [← hsh]; exact hdim'
  rw [forward_minibatch_single_eval self expf gather out0 tgt B C S (Or.inl hcw) hdim'
      hshape hsh,
    forward_minibatch_single_eval self expf gather tgt out0 B C S (Or.inl hcw) hdim2
      htshape hsh.symm]
  have hid : ∀ x : Tensor, (if self.apply_softmax then softmax expf x else x) = x := by
    intro x
    rw [hsm]
    simp
  simp only [hid]
  have h1 : (fun c => classStat tgt out0 c) = (fun c => classStat out0 tgt c) :=
    funext (fun c => classStat_comm tgt out0 (by rw [htshape, hshape]) c)
  rw [h1, diceFormula_denom_comm]

/-- Witness for C10 at a concrete input. -/
theorem softDice_symmetric_witness :
    exLoss.forward_minibatch exExp false id (PyValue.tensor exOutput)
        (PyValue.tensor exTarget)
      = exLoss.forward_minibatch exExp false id (PyValue.tensor exTarget)
          (PyValue.tensor exOutput) :=
  softDice_symmetric exLoss exExp id exOutput exTarget rfl rfl (by decide) rfl

/-- C8: exact raises-iff characterization of the input validation of
`forward_minibatch`: it raises `TypeError` iff at least one argument is not a tensor;
given two tensors, it raises the dimension `ValueError` iff the output has fewer than 3
dimensions (this check runs before the shape comparison) and the shape `ValueError` iff
the dimensions are fine but the shapes differ; whenever a check fails no loss value is
produced. -/
theorem softDice_input_validation (self : SoftDiceLoss) (expf : ℚ → ℚ) (distActive : Bool)
    (gather : Tensor → Tensor) (output target : PyValue) :
    ((self.forward_minibatch expf distActive gather output target
        = Except.error DiceError.typeError)
      ↔ (output.isTensor = false ∨ target.isTensor = false))
    ∧ (∀ out0 tgt, output = PyValue.tensor out0 → target = PyValue.tensor tgt →
        (((self.forward_minibatch expf distActive gather output target
            = Except.error DiceError.dimError) ↔ out0.shape.length < 3)
          ∧ ((self.forward_minibatch expf distActive gather output target
              = Except.error DiceError.shapeError)
            ↔ (¬ out0.shape.length < 3 ∧ out0.shape ≠ tgt.shape))
          ∧ ((out0.shape.length < 3 ∨ out0.shape ≠ tgt.shape) →
              ∀ r, self.forward_minibatch expf distActive gather output target
                ≠ Except.ok r))) := by
  cases output with
  | other =>
    refine ⟨iff_of_true rfl (Or.inl rfl), ?_⟩
    intro out0 tgt h1 _h2
    exact PyValue.noConfusion h1
  | tensor out0 =>
    cases target with
    | other =>
      refine ⟨iff_of_true rfl (Or.inr rfl), ?_⟩
      intro out0' tgt h1 h2
      exact PyValue.noConfusion h2
    | tensor tgt =>
      have hcore : self.forward_minibatch expf distActive gather (PyValue.tensor out0)
          (PyValue.tensor tgt)
          = self.forward_core expf (fun _ => synchronize_across_gpus distActive gather)
              out0 tgt := rfl
      have tri : (out0.shape.length < 3 ∧
            self.forward_core expf (fun _ => synchronize_across_gpus distActive gather)
              out0 tgt = Except.error DiceError.dimError)
          ∨ (¬ out0.shape.length < 3 ∧ out0.shape ≠ tgt.shape ∧
            self.forward_core expf (fun _ => synchronize_across_gpus distActive gather)
              out0 tgt = Except.error DiceError.shapeError)
          ∨ (¬ out0.shape.length < 3 ∧ out0.shape = tgt.shape ∧
            ((∃ r, self.forward_core expf
                (fun _ => synchronize_across_gpus distActive gather) out0 tgt
                = Except.ok r)
              ∨ self.forward_core expf
                  (fun _ => synchronize_across_gpus distActive gather) out0 tgt
                = Except.error DiceError.einsumError)) := by
        by_cases hdim : out0.shape.length < 3
        · exact Or.inl ⟨hdim, forward_core_dim_error self expf _ out0 tgt hdim⟩
        · by_cases hsh : out0.shape = tgt.shape
          · exact Or.inr (Or.inr ⟨hdim, hsh,
              forward_core_checks_result self expf _ out0 tgt hdim hsh⟩)
          · exact Or.inr (Or.inl ⟨hdim, hsh,
              forward_core_shape_error self expf _ out0 tgt hdim hsh⟩)
      constructor
      · rw [hcore]
        rcases tri with ⟨hdim, hF⟩ | ⟨hdim, hsh, hF⟩ | ⟨hdim, hsh, ⟨r, hF⟩ | hF⟩ <;>
          simp [hF, PyValue.isTensor]
      · intro out0' tgt' h1 h2
        injection h1 with h1
        injection h2 with h2
        subst h1
        subst h2
        rw [hcore]
        rcases tri with ⟨hdim, hF⟩ | ⟨hdim, hsh, hF⟩ | ⟨hdim, hsh, ⟨r, hF⟩ | hF⟩
        · exact ⟨iff_of_true hF hdim,
            iff_of_false (by simp [hF]) (by simp [hdim]),
            fun _ r => by simp [hF]⟩
        · exact ⟨iff_of_false (by simp [hF]) (by simp [hdim]),
            iff_of_true hF ⟨hdim, hsh⟩,
            fun _ r => by simp [hF]⟩
        · exact ⟨iff_of_false (by simp [hF]) (by simp [hdim]),
            iff_of_false (by simp [hF]) (by simp [hdim, hsh]),
            fun hbad _ => by
              rcases hbad with hbad | hbad
              · exact absurd hbad hdim
              · exact absurd hsh hbad⟩
        · exact ⟨iff_of_false (by simp [hF]) (by simp [hdim]),
            iff_of_false (by simp [hF]) (by simp [hdim, hsh]),
            fun hbad _ => by
              rcases hbad with hbad | hbad
              · exact absurd hbad hdim
              · exact absurd hsh hbad⟩

/-- Witness for C8: a 2-dimensional tensor pair is rejected by the dimension check. -/
theorem softDice_input_validation_witness :
    exLoss.forward_minibatch exExp false id (PyValue.tensor exTensor2)
        (PyValue.tensor exTensor2) = Except.error DiceError.dimError :=
  ((softDice_input_validation exLoss exExp false id (PyValue.tensor exTensor2)
      (PyValue.tensor exTensor2)).2 exTensor2 exTensor2 rfl rfl).1.mpr (by decide)

lemma getD_mem_of_lt {α : Type} (l : List α) (k : ℕ) (d : α) (h : k < l.length) :
    l.getD k d ∈ l := by
  induction l generalizing k with
  | nil => simp at h
  | cons a l ih =>
    cases k with
    | zero => simp
    | succ k =>
      simp only [List.getD_cons_succ]
      exact List.mem_cons_of_mem a (ih k (by simpa using h))

/-- C2: modelling the collective reduction as stacking the per-device `[1, classes]`
statistics along dimension 0 (the behaviour of `SyncFunction`), the loss computed by any
device `k` of `N ≥ 1` participating devices is obtained from the globally aggregated
statistics: the per-class intersection and the two sums of squares are each summed over
all devices before the division and the mean over classes, so every device obtains the
same globally consistent loss value. -/
theorem softDice_forward_dist_global_formula (self : SoftDiceLoss) (expf : ℚ → ℚ)
    (devices : List (Tensor × Tensor)) (k : ℕ) (B C : ℕ) (S : List ℕ)
    (hcw : self.class_weight_power = none) (hk : k < devices.length)
    (hdev : ∀ d ∈ devices, d.1.shape = B :: C :: S ∧ d.2.shape = B :: C :: S)
    (hS : S ≠ []) :
    (self.forward_minibatch_dist expf devices k).map (fun r => r.synced)
      = Except.ok (diceFormula self.eps C
          (fun c => (devices.map (fun d => classStat
            (if self.apply_softmax then softmax expf d.1 else d.1) d.2 c)).sum)
          (fun c => (devices.map (fun d => classStat
            (if self.apply_softmax then softmax expf d.1 else d.1)
            (if self.apply_softmax then softmax expf d.1 else d.1) c)).sum)
          (fun c => (devices.map (fun d => classStat d.2 d.2 c)).sum)) := by
  have hne : devices ≠ [] := by
    intro h
    rw [h] at hk
    simp at hk
  have hdk := hdev _ (getD_mem_of_lt devices k default hk)
  have hsh2 : (devices.getD k default).1.shape = (devices.getD k default).2.shape := by
    rw [hdk.1, hdk.2]
  have hpos : 0 < S.length := List.length_pos.mpr hS
  have hdim2 : ¬ (devices.getD k default).1.shape.length < 3 := by
    rw [hdk.1]
    simp only [List.length_cons]
    omega
  have hsh0 : (sumDim (stackDevices (devices.map (localStat self expf 0))) 0).shape
      = [C] := by
    rw [sumDim_stackDevices_shape]
    cases devices with
    | nil => exact absurd rfl hne
    | cons d ds =>
      have hOT : (if self.apply_softmax then softmax expf d.1 else d.1).shape
          = B :: C :: S :=
        (effective_output_shape self expf d.1).trans (hdev d (List.mem_cons_self d ds)).1
      show (sumDims (mul (if self.apply_softmax then softmax expf d.1 else d.1) d.2)
          (sum_across (if self.apply_softmax then softmax expf d.1 else d.1).shape)).shape
          = [C]
      exact sumDims_mul_sum_across_shape _ d.2 B C S hOT
  have hv0 : ∀ c : ℕ,
      (sumDim (stackDevices (devices.map (localStat self expf 0))) 0).val [c]
        = (devices.map (fun d => classStat
            (if self.apply_softmax then softmax expf d.1 else d.1) d.2 c)).sum := by
    intro c
    rw [sumDim_stackDevices_val, List.map_map]
    refine congrArg List.sum (List.map_congr_left (fun d hd => ?_))
    have hOT : (if self.apply_softmax then softmax expf d.1 else d.1).shape = B :: C :: S :=
      (effective_output_shape self expf d.1).trans (hdev d hd).1
    show (sumDims (mul (if self.apply_softmax then softmax expf d.1 else d.1) d.2)
        (sum_across (if self.apply_softmax then softmax expf d.1 else d.1).shape)).val [c]
        = _
    exact sumDims_mul_sum_across_val _ d.2 B C S hOT c
  have hv2 : ∀ c : ℕ,
      (sumDim (stackDevices (devices.map (localStat self expf 2))) 0).val [c]
        = (devices.map (fun d => classStat
            (if self.apply_softmax then softmax expf d.1 else d.1)
            (if self.apply_softmax then softmax expf d.1 else d.1) c)).sum := by
    intro c
    rw [sumDim_stackDevices_val, List.map_map]
    refine congrArg List.sum (List.map_congr_left (fun d hd => ?_))
    have hOT : (if self.apply_softmax then softmax expf d.1 else d.1).shape = B :: C :: S :=
      (effective_output_shape self expf d.1).trans (hdev d hd).1
    show (sumDims (mul (if self.apply_softmax then softmax expf d.1 else d.1)
          (if self.apply_softmax then softmax expf d.1 else d.1))
        (sum_across (if self.apply_softmax then softmax expf d.1 else d.1).shape)).val [c]
        = _
    exact sumDims_mul_sum_across_val _ _ B C S hOT c
  have hv3 : ∀ c : ℕ,
      (sumDim (stackDevices (devices.map (localStat self expf 3))) 0).val [c]
        = (devices.map (fun d => classStat d.2 d.2 c)).sum := by
    intro c
    rw [sumDim_stackDevices_val, List.map_map]
    refine congrArg List.sum (List.map_congr_left (fun d hd => ?_))
    show (sumDims (mul d.2 d.2) (sum_across d.2.shape)).val [c] = _
    exact sumDims_mul_sum_across_val d.2 d.2 B C S (hdev d hd).2 c
  show (self.forward_core expf
      (fun site _ => stackDevices (devices.map (localStat self expf site)))
      (devices.getD k default).1 (devices.getD k default).2).map (fun r => r.synced)
    = _
  rw [forward_core_eval self expf _ _ _ (Or.inl hcw) hdim2 hsh2]
  simp only [Except.map]
  refine congrArg Except.ok ?_
  rw [mean_shape_single (div
      (addScalar (sumDim (stackDevices (devices.map (localStat self expf 0))) 0) self.eps)
      (addScalar (add
        (sumDim (stackDevices (devices.map (localStat self expf 2))) 0)
        (sumDim (stackDevices (devices.map (localStat self expf 3))) 0)) self.eps))
    C hsh0]
  unfold diceFormula
  refine congrArg (fun x : ℚ => 1 - 2 * (x / (C : ℚ)))
    (congrArg List.sum (List.map_congr_left (fun c _ => ?_)))
  show ((sumDim (stackDevices (devices.map (localStat self expf 0))) 0).val [c] + self.eps)
      / ((sumDim (stackDevices (devices.map (localStat self expf 2))) 0).val [c]
        + (sumDim (stackDevices (devices.map (localStat self expf 3))) 0).val [c]
        + self.eps) = _
  rw [hv0 c, hv2 c, hv3 c]

/-- Witness for C2 at a concrete two-device family, as seen by the second device. -/
theorem softDice_forward_dist_global_formula_witness :
    (exLoss.forward_minibatch_dist exExp exDevices 1).map (fun r => r.synced)
      = Except.ok (diceFormula exLoss.eps 2
          (fun c => (exDevices.map (fun d => classStat
            (if exLoss.apply_softmax then softmax exExp d.1 else d.1) d.2 c)).sum)
          (fun c => (exDevices.map (fun d => classStat
            (if exLoss.apply_softmax then softmax exExp d.1 else d.1)
            (if exLoss.apply_softmax then softmax exExp d.1 else d.1) c)).sum)
          (fun c => (exDevices.map (fun d => classStat d.2 d.2 c)).sum)) :=
  softDice_forward_dist_global_formula exLoss exExp exDevices 1 1 2 [1] rfl (by decide)
    (by decide) (by decide)
